import Mathlib

/-!
Verification of the leveled logging facade in `pkg/util/log/log.go`.

The Go file defines a `logr.Logger` adapter with two concrete receivers:
`*log` (an active logger carrying `current`, `level`, `prefixes`, `depth`)
and `*silent` (the null logger).  All methods are translated below as pure
functions on Lean values: Go slices of strings become `List String` (the
defensive slice copies in the Go code are the identity on immutable lists),
Go `int` becomes `Int`, and the variadic `...interface{}` arguments become
lists of a closed sum type `GoValue` that records the dynamic-type
classification performed by the `switch t := kv.(type)` in
`formatKeysAndValues`.  The klog backend is modelled as the list of calls a
logging operation emits.
-/

namespace VLog

/-- A Go `interface{}` argument as classified by the type switch in
`formatKeysAndValues`: a string, a non-nil value whose dynamic type
implements `error` (carrying the result of its `Error()` method), the nil
interface value, or any other value (carrying its deterministic
`fmt.Sprintf("%#v", kv)` rendering). -/
inductive GoValue where
  | str (s : String)
  | errVal (msg : String)
  | nilInterface
  | other (goRepr : String)
deriving DecidableEq, Repr

/-- Rendering of one `interface{}` value: the body of the `switch` in
`formatKeysAndValues`.  A `string` is taken verbatim; a non-nil `error` is
rendered via `t.Error()`; the nil interface value matches no type case and
falls to the `default` branch, where `fmt.Sprintf("%#v", nil)` yields
`"<nil>"`; every other value is rendered by its `%#v` representation. -/
def renderValue : GoValue → String
  | .str t => t
  | .errVal t => t
  | .nilInterface => "<nil>"
  | .other r => r

/-- Go's `strings.Join(elems, sep)`: concatenates the elements with the
separator between consecutive elements; the empty list joins to `""` and a
singleton joins to its sole element. -/
def stringsJoin (sep : String) : List String → String
  | [] => ""
  | [a] => a
  | a :: rest => a ++ sep ++ stringsJoin sep rest

/-- `formatKeysAndValues`: renders each argument and joins with single
spaces (`strings.Join(args, " ")`). -/
def formatKeysAndValues (keysAndValues : List GoValue) : String :=
  stringsJoin " " (keysAndValues.map renderValue)

/-- The `log` struct: `current` (the level selected by `V`), `level` (the
threshold the root was constructed with), `prefixes` (accumulated name /
context segments), `depth` (stack depth forwarded to klog). -/
structure log where
  current : Int
  level : Int
  prefixes : List String
  depth : Int
deriving DecidableEq, Repr

/-- A `logr.Logger` handle: either a pointer to a `log` value or the
`silent` null logger. -/
inductive Logger where
  | ofLog (l : log)
  | silent
deriving DecidableEq, Repr

/-- The `log` value built by `NewLog(level)`: `current` and `prefixes` are
Go zero values, `depth` is 1. -/
def newLog (level : Int) : log :=
  { current := 0, level := level, prefixes := [], depth := 1 }

/-- `NewLog(level)` returns the fresh `log` as a `logr.Logger`. -/
def NewLog (level : Int) : Logger :=
  .ofLog (newLog level)

/-- A call into the klog backend: `klog.InfoDepth(depth, line)` or
`klog.ErrorDepth(depth, line)`. -/
inductive BackendCall where
  | infoDepth (depth : Int) (line : String)
  | errorDepth (depth : Int) (line : String)
deriving DecidableEq, Repr

/-- The conversion of the `err error` argument of `Error` into the
`interface{}` element prepended to the key/value list: a nil `error`
becomes the nil interface value, a non-nil one an error-classified value. -/
def errArg : Option String → GoValue
  | none => .nilInterface
  | some m => .errVal m

/-- `(*log).formatMsg`: joins `prefixes` with `": "`, renders the
key/values, then prepends `prefixes + ": "` when the joined prefix string
is non-empty and appends `" " + addString` when the rendered key/value
string is non-empty. -/
def log.formatMsg (l : log) (msg : String) (keysAndValues : List GoValue) : String :=
  let prefixes := stringsJoin ": " l.prefixes
  let addString := formatKeysAndValues keysAndValues
  let retString := msg
  let retString := if prefixes ≠ "" then prefixes ++ ": " ++ retString else retString
  let retString := if addString ≠ "" then retString ++ " " ++ addString else retString
  retString

/-- `(*log).Info`: one `klog.InfoDepth(l.depth, l.formatMsg(...))` call. -/
def log.Info (l : log) (msg : String) (keysAndValues : List GoValue) : List BackendCall :=
  [.infoDepth l.depth (l.formatMsg msg keysAndValues)]

/-- `(*log).Error`: prepends `err` to the key/value list and makes one
`klog.ErrorDepth(l.depth, l.formatMsg(...))` call. -/
def log.Error (l : log) (err : Option String) (msg : String)
    (keysAndValues : List GoValue) : List BackendCall :=
  let newKeysAndValues := [errArg err]
  let newKeysAndValues := newKeysAndValues ++ keysAndValues
  [.errorDepth l.depth (l.formatMsg msg newKeysAndValues)]

/-- `(*log).Enabled` always reports `true`. -/
def log.Enabled (_l : log) : Bool :=
  true

/-- `(*log).V`: below the threshold returns `&silent{}`; otherwise a new
`log` with the same threshold, `current = level`, a copy of the prefixes
and the same depth. -/
def log.V (l : log) (level : Int) : Logger :=
  if level < l.level then .silent
  else .ofLog { level := l.level, current := level, prefixes := l.prefixes, depth := l.depth }

/-- `(*log).WithValues`: appends the single rendered key/value string as
one new prefix entry. -/
def log.WithValues (l : log) (keysAndValues : List GoValue) : Logger :=
  .ofLog { level := l.level, current := l.current,
           prefixes := l.prefixes ++ [formatKeysAndValues keysAndValues], depth := l.depth }

/-- `(*log).WithName`: the empty name yields a field-for-field copy; a
non-empty name is appended as one new prefix entry. -/
def log.WithName (l : log) (name : String) : Logger :=
  if name = "" then
    .ofLog { level := l.level, current := l.current, prefixes := l.prefixes, depth := l.depth }
  else
    .ofLog { level := l.level, current := l.current,
             prefixes := l.prefixes ++ [name], depth := l.depth }

/-- `(*log).WithDepth`: same fields with `depth` replaced. -/
def log.WithDepth (l : log) (depth : Int) : Logger :=
  .ofLog { level := l.level, current := l.current, prefixes := l.prefixes, depth := depth }

/-- Dynamic dispatch of `Info` on a `logr.Logger`: `(*silent).Info` is a
no-op (no backend call). -/
def Logger.Info : Logger → String → List GoValue → List BackendCall
  | .ofLog l, msg, kvs => l.Info msg kvs
  | .silent, _, _ => []

/-- Dynamic dispatch of `Error`: `(*silent).Error` is a no-op. -/
def Logger.Error : Logger → Option String → String → List GoValue → List BackendCall
  | .ofLog l, err, msg, kvs => l.Error err msg kvs
  | .silent, _, _, _ => []

/-- Dynamic dispatch of `Enabled`: `(*silent).Enabled` reports `false`. -/
def Logger.Enabled : Logger → Bool
  | .ofLog l => l.Enabled
  | .silent => false

/-- Dynamic dispatch of `V`: `(*silent).V` returns the receiver itself. -/
def Logger.V : Logger → Int → Logger
  | .ofLog l, level => l.V level
  | .silent, _ => .silent

/-- Dynamic dispatch of `WithValues`: `(*silent).WithValues` returns the
receiver itself. -/
def Logger.WithValues : Logger → List GoValue → Logger
  | .ofLog l, kvs => l.WithValues kvs
  | .silent, _ => .silent

/-- Dynamic dispatch of `WithName`: `(*silent).WithName` returns the
receiver itself. -/
def Logger.WithName : Logger → String → Logger
  | .ofLog l, n => l.WithName n
  | .silent, _ => .silent

/-- One derivation step of the `logr.Logger` interface (the operations the
null logger also implements). -/
inductive DeriveStep where
  | v (level : Int)
  | withValues (kvs : List GoValue)
  | withName (name : String)
deriving DecidableEq, Repr

/-- Apply one derivation step to a logger handle. -/
def applyStep (lg : Logger) : DeriveStep → Logger
  | .v level => lg.V level
  | .withValues kvs => lg.WithValues kvs
  | .withName n => lg.WithName n

/-- Apply a finite sequence of derivation steps, left to right. -/
def applySteps (lg : Logger) (steps : List DeriveStep) : Logger :=
  steps.foldl applyStep lg

/-- One derivation step available on an active `*log` receiver (these also
include `WithDepth`, which the null logger does not implement). -/
inductive LogStep where
  | v (level : Int)
  | withValues (kvs : List GoValue)
  | withName (name : String)
  | withDepth (depth : Int)
deriving DecidableEq, Repr

/-- Apply one active-logger derivation step to a `log` value. -/
def applyLogStep (l : log) : LogStep → Logger
  | .v level => l.V level
  | .withValues kvs => l.WithValues kvs
  | .withName n => l.WithName n
  | .withDepth d => l.WithDepth d

/-- The parent handle as observed after a derivation call: the child is
computed first (mirroring "call the derivation on A to obtain B"), then the
parent is returned for further observation.  The Go method bodies never
assign through the receiver pointer and copy the prefix slice before
appending, so the parent value is the receiver unchanged. -/
def parentAfter (l : log) (s : LogStep) : log :=
  let _b := applyLogStep l s
  l

/-- The rendering formula exactly as the specification sentence states it:
the prefix segment is omitted when the prefix *sequence* is empty and the
trailing segment is omitted when the pairs *sequence* is empty.  Written
from the spec words, to be compared against `log.formatMsg`. -/
def claimedRenderLine (prefixes : List String) (msg : String) (kvs : List GoValue) : String :=
  (if prefixes = [] then "" else stringsJoin ": " prefixes ++ ": ") ++ msg ++
    (if kvs = [] then "" else " " ++ formatKeysAndValues kvs)

/-- The rendering formula with the omission conditions the code actually
tests: each segment is dropped when the corresponding *rendered string* is
empty (not when the corresponding sequence is empty). -/
def renderLine (prefixes : List String) (msg : String) (kvs : List GoValue) : String :=
  (if stringsJoin ": " prefixes = "" then "" else stringsJoin ": " prefixes ++ ": ") ++ msg ++
    (if formatKeysAndValues kvs = "" then "" else " " ++ formatKeysAndValues kvs)

/-- Joining a list extended by one more element appends one more separator
and the element, provided the list was non-empty. -/
theorem stringsJoin_append_singleton (sep x : String) :
    ∀ (a : String) (xs : List String),
      stringsJoin sep ((a :: xs) ++ [x]) = stringsJoin sep (a :: xs) ++ sep ++ x := by
  intro a xs
  induction xs generalizing a with
  | nil => rfl
  | cons b rest ih =>
      show stringsJoin sep (a :: ((b :: rest) ++ [x])) = _
      have h1 : stringsJoin sep (a :: ((b :: rest) ++ [x])) =
          a ++ sep ++ stringsJoin sep ((b :: rest) ++ [x]) := by
        cases rest <;> rfl
      have h2 : stringsJoin sep (a :: b :: rest) = a ++ sep ++ stringsJoin sep (b :: rest) := by
        cases rest <;> rfl
      rw [h1, ih b, h2]
      simp [String.append_assoc]

/-- `formatMsg` computes exactly `renderLine` on the logger's prefixes. -/
theorem formatMsg_eq_renderLine (l : log) (msg : String) (kvs : List GoValue) :
    l.formatMsg msg kvs = renderLine l.prefixes msg kvs := by
  unfold log.formatMsg renderLine
  by_cases h1 : stringsJoin ": " l.prefixes = "" <;>
    by_cases h2 : formatKeysAndValues kvs = "" <;>
      simp [h1, h2, String.append_assoc]

/-- C1: `V(L)` on a non-null logger with threshold T yields the null logger
iff `L < T`; otherwise it yields a non-null logger with the same threshold,
a copy of the parent's prefixes, `current = L` and the parent's depth, and
`Info`/`Error` on it each emit a backend call. -/
theorem V_gating (l : log) (level : Int) :
    ((Logger.ofLog l).V level = Logger.silent ↔ level < l.level) ∧
    (l.level ≤ level →
      ((Logger.ofLog l).V level =
        Logger.ofLog { current := level, level := l.level,
                       prefixes := l.prefixes, depth := l.depth }) ∧
      (∀ msg kvs err, ((Logger.ofLog l).V level).Info msg kvs ≠ [] ∧
        ((Logger.ofLog l).V level).Error err msg kvs ≠ [])) := by
  have hV : (Logger.ofLog l).V level = l.V level := rfl
  by_cases h : level < l.level
  · refine ⟨⟨fun _ => h, fun _ => by simp [hV, log.V, h]⟩, fun hle => absurd h (not_lt.mpr hle)⟩
  · refine ⟨⟨fun hs => ?_, fun hlt => absurd hlt h⟩, fun _ => ⟨by simp [hV, log.V, h], ?_⟩⟩
    · rw [hV] at hs
      simp [log.V, h] at hs
    · intro msg kvs err
      constructor <;>
        simp [hV, log.V, h, Logger.Info, Logger.Error, log.Info, log.Error]

/-- C1 witness: with threshold 2, level 5 passes the gate and produces the
expected non-null logger, while level 1 is suppressed to the null logger. -/
theorem V_gating_witness :
    ((Logger.ofLog (newLog 2)).V 5 =
      Logger.ofLog { current := 5, level := 2, prefixes := [], depth := 1 }) ∧
    (Logger.ofLog (newLog 2)).V 1 = Logger.silent :=
  ⟨((V_gating (newLog 2) 5).2 (by decide)).1,
   (V_gating (newLog 2) 1).1.mpr (by decide)⟩

/-- C2 counterexample: with an empty prefix list and the one-element pairs
list `[""]` (a supplied pair rendering to the empty string) the code omits
the trailing segment because the *rendered* pairs string is empty, while
the claim's formula — omission only "when no pairs are supplied" — keeps a
trailing space. -/
theorem formatMsg_claim_counterexample :
    (newLog 0).formatMsg "m" [GoValue.str ""] = "m" ∧
    claimedRenderLine (newLog 0).prefixes "m" [GoValue.str ""] = "m " ∧
    (newLog 0).formatMsg "m" [GoValue.str ""] ≠
      claimedRenderLine (newLog 0).prefixes "m" [GoValue.str ""] := by
  refine ⟨by decide, by decide, by decide⟩

/-- C2 (amended): the rendered line is the joined prefixes + `": "`, then
the message, then a space and the rendered pairs, where each segment is
omitted exactly when the corresponding *rendered string* is empty — in
particular when the prefix sequence is empty, respectively when no pairs
are supplied; prefixes `["svc", "worker"]` with message `"started"` and
pairs `("id", 42)` render `"svc: worker: started id 42"`. -/
theorem formatMsg_rendering (l : log) (msg : String) (kvs : List GoValue) :
    (l.formatMsg msg kvs = renderLine l.prefixes msg kvs) ∧
    (l.prefixes = [] → l.formatMsg msg kvs =
      msg ++ (if formatKeysAndValues kvs = "" then "" else " " ++ formatKeysAndValues kvs)) ∧
    (kvs = [] → l.formatMsg msg kvs =
      (if stringsJoin ": " l.prefixes = "" then ""
        else stringsJoin ": " l.prefixes ++ ": ") ++ msg) ∧
    Logger.Info (((NewLog 0).WithName "svc").WithName "worker") "started"
        [GoValue.str "id", GoValue.other "42"] =
      [BackendCall.infoDepth 1 "svc: worker: started id 42"] := by
  refine ⟨formatMsg_eq_renderLine l msg kvs, fun h1 => ?_, fun h2 => ?_, by decide⟩
  · rw [formatMsg_eq_renderLine, renderLine, h1]
    simp [stringsJoin]
  · rw [formatMsg_eq_renderLine, renderLine, h2]
    simp [formatKeysAndValues, stringsJoin]

/-- C2 witness: an empty prefix list and no pairs render the bare message. -/
theorem formatMsg_rendering_witness : (newLog 0).formatMsg "m" [] = "m" :=
  ((formatMsg_rendering (newLog 0) "m" []).2.1 rfl).trans (by decide)

/-- Reclassification of a backend call as error-level, keeping depth and
line: used to state that `Error` emits exactly what `Info` would, at error
level. -/
def toErrorCall : BackendCall → BackendCall
  | .infoDepth d s => .errorDepth d s
  | .errorDepth d s => .errorDepth d s

/-- C3: `Error(err, msg, pairs...)` renders exactly as
`Info(msg, err :: pairs...)` would — the error argument is prepended as the
first element of the key/value list before pair rendering — and emits the
same depth and line at error level; concretely, `Error(boom, "failed")`
with no prefixes and no other pairs renders `"failed boom"`. -/
theorem Error_prepends_err (l : log) (err : Option String) (msg : String)
    (kvs : List GoValue) :
    (Logger.Error (Logger.ofLog l) err msg kvs =
      (Logger.Info (Logger.ofLog l) msg (errArg err :: kvs)).map toErrorCall) ∧
    Logger.Error (NewLog 0) (some "boom") "failed" [] =
      [BackendCall.errorDepth 1 "failed boom"] := by
  refine ⟨?_, by decide⟩
  simp [Logger.Error, Logger.Info, log.Error, log.Info, toErrorCall]

/-- C4: the null logger is absorbing — `V`, `WithValues` and `WithName` on
it return it unchanged, `Info` and `Error` on it emit no backend call, and
any finite sequence of derivations starting from it stays the null
logger. -/
theorem silent_absorbing :
    (∀ level, Logger.V Logger.silent level = Logger.silent) ∧
    (∀ kvs, Logger.WithValues Logger.silent kvs = Logger.silent) ∧
    (∀ name, Logger.WithName Logger.silent name = Logger.silent) ∧
    (∀ msg kvs, Logger.Info Logger.silent msg kvs = []) ∧
    (∀ err msg kvs, Logger.Error Logger.silent err msg kvs = []) ∧
    (∀ steps, applySteps Logger.silent steps = Logger.silent) := by
  refine ⟨fun _ => rfl, fun _ => rfl, fun _ => rfl, fun _ _ => rfl, fun _ _ _ => rfl, ?_⟩
  intro steps
  induction steps with
  | nil => rfl
  | cons s rest ih =>
      have hs : applyStep Logger.silent s = Logger.silent := by cases s <;> rfl
      simpa [applySteps, List.foldl_cons, hs] using ih

/-- C5: derivation never mutates the parent.  The Go method bodies never
assign through the receiver and copy the prefix slice before appending, so
in this value-level translation the parent observed after any derivation
(`WithName`, `WithValues`, `V`, `WithDepth`) is the very same value: its
prefixes, threshold and rendering of any message are unchanged. -/
theorem derive_frame (l : log) (s : LogStep) (msg : String) (kvs : List GoValue) :
    parentAfter l s = l ∧
    (parentAfter l s).prefixes = l.prefixes ∧
    (parentAfter l s).level = l.level ∧
    (parentAfter l s).formatMsg msg kvs = l.formatMsg msg kvs :=
  ⟨rfl, rfl, rfl, rfl⟩

/-- C6: `WithName` appends each non-empty name as one entry at the end of
the prefix list in call order, so `WithName("a")` then `WithName("b")`
renders the prefix `"a: b"`, while the opposite order renders `"b: a"`. -/
theorem withName_cumulative (l : log) (a b : String) (ha : a ≠ "") (hb : b ≠ "") :
    (((Logger.ofLog l).WithName a).WithName b =
      Logger.ofLog { current := l.current, level := l.level,
                     prefixes := l.prefixes ++ [a, b], depth := l.depth }) ∧
    Logger.Info (((NewLog 0).WithName "a").WithName "b") "started" [] =
      [BackendCall.infoDepth 1 "a: b: started"] ∧
    Logger.Info (((NewLog 0).WithName "b").WithName "a") "started" [] =
      [BackendCall.infoDepth 1 "b: a: started"] := by
  refine ⟨?_, by decide, by decide⟩
  simp [Logger.WithName, log.WithName, ha, hb]

/-- C6 witness: two concrete non-empty names accumulate in call order. -/
theorem withName_cumulative_witness :
    ((Logger.ofLog (newLog 0)).WithName "x").WithName "y" =
      Logger.ofLog { current := 0, level := 0, prefixes := ["x", "y"], depth := 1 } :=
  (withName_cumulative (newLog 0) "x" "y" (by decide) (by decide)).1

/-- C7: `WithName("")` builds a fresh handle whose fields all equal the
receiver's (so, by structure eta, the same logger value): it renders every
message identically and behaves identically under every further
derivation.  Pointer freshness itself is a memory-identity fact below this
value-level embedding; every observable consequence the claim draws from
it is proved here. -/
theorem withName_empty_copy (l : log) :
    (l.WithName "" = Logger.ofLog l) ∧
    (∀ msg kvs, Logger.Info (l.WithName "") msg kvs = Logger.Info (Logger.ofLog l) msg kvs) ∧
    (∀ err msg kvs,
      Logger.Error (l.WithName "") err msg kvs = Logger.Error (Logger.ofLog l) err msg kvs) ∧
    (∀ steps, applySteps (l.WithName "") steps = applySteps (Logger.ofLog l) steps) := by
  have h : l.WithName "" = Logger.ofLog l := by
    simp [log.WithName]
  exact ⟨h, fun _ _ => by rw [h], fun _ _ _ => by rw [h], fun _ => by rw [h]⟩

/-- C8: `WithDepth(d)` keeps the threshold, current level and prefixes and
changes only the depth forwarded to the backend: the rendered line of every
subsequent `Info`/`Error` call is the same string the receiver would
render, paired with depth `d` instead of the receiver's depth. -/
theorem withDepth_frame (l : log) (d : Int) :
    (l.WithDepth d = Logger.ofLog { l with depth := d }) ∧
    (∀ msg kvs, Logger.Info (l.WithDepth d) msg kvs =
      [BackendCall.infoDepth d (l.formatMsg msg kvs)]) ∧
    (∀ msg kvs, Logger.Info (Logger.ofLog l) msg kvs =
      [BackendCall.infoDepth l.depth (l.formatMsg msg kvs)]) ∧
    (∀ err msg kvs, Logger.Error (l.WithDepth d) err msg kvs =
      [BackendCall.errorDepth d (l.formatMsg msg (errArg err :: kvs))]) :=
  ⟨rfl, fun _ _ => rfl, fun _ _ => rfl, fun _ _ _ => rfl⟩

/-- C9: `Error` with a nil error value is total and non-crashing: the nil
interface value matches no type case of the rendering switch and falls to
the default debug-representation branch (rendered `"<nil>"`, its `Error`
method never invoked), so `Error(nil, "failed")` on a fresh logger renders
`"failed <nil>"`. -/
theorem error_nil_safe (l : log) (msg : String) (kvs : List GoValue) :
    (errArg none = GoValue.nilInterface) ∧
    (renderValue GoValue.nilInterface = "<nil>") ∧
    (Logger.Error (Logger.ofLog l) none msg kvs =
      [BackendCall.errorDepth l.depth (l.formatMsg msg (GoValue.nilInterface :: kvs))]) ∧
    Logger.Error (NewLog 0) none "failed" [] =
      [BackendCall.errorDepth 1 "failed <nil>"] :=
  ⟨rfl, rfl, rfl, by decide⟩

/-- C10 counterexample: deriving via `WithValues()` from a logger with an
*empty* prefix list yields a child whose rendered lines are identical to
the parent's and contain no doubled separator — the appended empty entry
joins to the empty string, so the prefix segment is dropped. -/
theorem withValues_empty_counterexample :
    Logger.Info ((NewLog 0).WithValues []) "m" [] = Logger.Info (NewLog 0) "m" [] ∧
    Logger.Info ((NewLog 0).WithValues []) "m" [] = [BackendCall.infoDepth 1 "m"] := by
  refine ⟨by decide, by decide⟩

/-- C10 (amended): `WithValues` with zero arguments (or with pairs that all
render to the empty string) still appends one empty-string entry to the
prefix list; when the parent's prefix list is empty the child renders
identically to the parent, and when the parent's joined prefix string is
non-empty every line the child renders carries the doubled separator —
e.g. a parent with prefix `"a"` yields `"a: : m"` for `Info("m")`. -/
theorem withValues_empty_appends (l : log) (kvs : List GoValue) (msg : String)
    (ms : List GoValue) (h : formatKeysAndValues kvs = "") :
    ((Logger.ofLog l).WithValues kvs =
      Logger.ofLog { current := l.current, level := l.level,
                     prefixes := l.prefixes ++ [""], depth := l.depth }) ∧
    (l.prefixes = [] →
      Logger.Info ((Logger.ofLog l).WithValues kvs) msg ms =
        Logger.Info (Logger.ofLog l) msg ms) ∧
    (stringsJoin ": " l.prefixes ≠ "" →
      Logger.Info ((Logger.ofLog l).WithValues kvs) msg ms =
        [BackendCall.infoDepth l.depth
          (stringsJoin ": " l.prefixes ++ ": " ++ ": " ++ msg ++
            (if formatKeysAndValues ms = "" then "" else " " ++ formatKeysAndValues ms))]) ∧
    Logger.Info
        ((Logger.ofLog { current := 0, level := 0, prefixes := ["a"], depth := 1 }).WithValues [])
        "m" [] =
      [BackendCall.infoDepth 1 "a: : m"] := by
  refine ⟨by simp [Logger.WithValues, log.WithValues, h], fun hp => ?_, fun hJ => ?_, by decide⟩
  · simp only [Logger.WithValues, log.WithValues, h, Logger.Info, log.Info]
    rw [formatMsg_eq_renderLine, formatMsg_eq_renderLine]
    simp [renderLine, hp, stringsJoin]
  · have hp : l.prefixes ≠ [] := by
      intro hnil
      exact hJ (by rw [hnil]; rfl)
    obtain ⟨a, xs, hax⟩ : ∃ a xs, l.prefixes = a :: xs := by
      cases hl : l.prefixes with
      | nil => exact absurd hl hp
      | cons a xs => exact ⟨a, xs, rfl⟩
    have hJoin : stringsJoin ": " (l.prefixes ++ [""]) =
        stringsJoin ": " l.prefixes ++ ": " := by
      rw [hax, stringsJoin_append_singleton]
      simp
    have hne : stringsJoin ": " l.prefixes ++ ": " ≠ "" := by
      intro he
      have hlen := congrArg String.length he
      simp [String.length_append] at hlen
      exact absurd hlen.2 (by decide)
    simp only [Logger.WithValues, log.WithValues, h, Logger.Info, log.Info]
    rw [formatMsg_eq_renderLine]
    simp [renderLine, hJoin, hne, String.append_assoc]

/-- C10 witness: a parent with prefix `"a"`, derived with no key/value
arguments, renders `Info("m")` with the doubled separator. -/
theorem withValues_empty_appends_witness :
    Logger.Info
        ((Logger.ofLog { current := 0, level := 0, prefixes := ["a"], depth := 1 }).WithValues [])
        "m" [] =
      [BackendCall.infoDepth 1 "a: : m"] :=
  (withValues_empty_appends { current := 0, level := 0, prefixes := ["a"], depth := 1 }
    [] "m" [] rfl).2.2.2

end VLog
